import Mathlib

/-!
Shallow embedding of the 2D Wave Function Collapse implementation in
src/src/wfc/wfc2d.hpp (class wfc2d::internal::WaveFunctionCollapse2DImpl),
together with theorems settling the specification claims.

Modelling conventions:
- std::bitset<BITSET_SIZE> is modelled as a Finset (Fin BITSET_SIZE);
  bitset::set(pos, true) throws std::out_of_range for pos >= BITSET_SIZE,
  modelled by an Except error.
- size_t arithmetic only occurs at places where the operands make wraparound
  impossible under the stated hypotheses (grid dimensions are at least 1 for
  any initialized grid); Nat is used with those hypotheses made explicit.
- The member fields m_gridWidth, m_gridHeight, m_wave, m_output, m_ruleset,
  m_initialized form the state record WFCState.
- The utility random(min,max) draws from a std::random_device-seeded engine
  on every call; each call is modelled as consuming one arbitrary entropy
  value e, mapped into [min,max] as min + e % (max - min + 1).
- The failed assert in initialize (rows*cols == 0) is modelled as the error
  outcome of an Except: control never reaches the grid setup.
-/

namespace WFC2D

/-- BITSET_SIZE from the source: capacity of each direction's option bitset. -/
abbrev BITSET_SIZE : Nat := 8

/-- NUM_OPTION_DIRECTIONS from the source: up, down, left, right. -/
def NUM_OPTION_DIRECTIONS : Nat := 4

/-- std::numeric_limits of size_t ::max(), the unresolved-output sentinel. -/
def SIZE_T_MAX : Nat := 2 ^ 64 - 1

/-- A std::bitset of BITSET_SIZE bits, as the set of positions holding 1. -/
abbrev Bitset : Type := Finset (Fin BITSET_SIZE)

/-- bitset with every bit set, the result of bitset::set() with no argument. -/
def Bitset.full : Bitset := (Finset.univ : Finset (Fin BITSET_SIZE))

/-- Parse-time failures: std::bitset::set(pos, v) throws std::out_of_range
when pos is not smaller than the bitset size. -/
inductive ParseErr where
  | outOfRange
  deriving DecidableEq, Repr

/-- bitset::set(pos, true): sets bit pos, throwing when pos is out of range. -/
def bitsetSet (b : Bitset) (pos : Nat) : Except ParseErr Bitset :=
  if h : pos < BITSET_SIZE then
    Except.ok (insert (⟨pos, h⟩ : Fin BITSET_SIZE) b)
  else
    Except.error ParseErr.outOfRange

/-- The four direction-indexed option bitsets of a Tile
(options[0] = up, options[1] = down, options[2] = left, options[3] = right). -/
structure DirOptions where
  up : Bitset
  down : Bitset
  left : Bitset
  right : Bitset
  deriving DecidableEq

/-- options[i] for i in 0..3 (any access in the source uses such an index). -/
def DirOptions.get (o : DirOptions) (i : Nat) : Bitset :=
  match i with
  | 0 => o.up
  | 1 => o.down
  | 2 => o.left
  | _ => o.right

/-- options[i] = b for i in 0..3. -/
def DirOptions.set (o : DirOptions) (i : Nat) (b : Bitset) : DirOptions :=
  match i with
  | 0 => { o with up := b }
  | 1 => { o with down := b }
  | 2 => { o with left := b }
  | _ => { o with right := b }

/-- struct Tile of the source. The source leaves entropy uninitialized in a
default-constructed Tile; the model uses 0 for that indeterminate value. -/
structure Tile where
  options : DirOptions
  entropy : Nat
  collapsed : Bool
  deriving DecidableEq

/-- Tile currentTile; — default construction (bitsets all zero, collapsed
false; entropy is indeterminate in C++, fixed to 0 here). -/
def defaultTile : Tile :=
  { options := { up := ∅, down := ∅, left := ∅, right := ∅ }
    entropy := 0
    collapsed := false }

/-- The member state of WaveFunctionCollapse2DImpl. -/
structure WFCState where
  gridWidth : Nat
  gridHeight : Nat
  wave : List Tile
  output : List Nat
  ruleset : List Tile
  initialized : Bool
  deriving DecidableEq

/-- A freshly constructed WaveFunctionCollapse2D object. -/
def emptyState : WFCState :=
  { gridWidth := 0, gridHeight := 0, wave := [], output := [],
    ruleset := [], initialized := false }

/-- Errors of initialize: the assert(rows * cols > 0) failing on a zero-sized
grid, i.e. the invalid-dimensions configuration error. -/
inductive InitError where
  | invalidDimensions
  deriving DecidableEq, Repr

/-- std::vector::resize(n): keeps the first min(n, length) elements and
default-constructs the rest. -/
def listResize (l : List α) (n : Nat) (dflt : α) : List α :=
  l.take n ++ List.replicate (n - l.length) dflt

/-- initialize(rows, cols) from the source (the name is a Lean keyword, so
the definition is called initGrid): asserts rows*cols > 0, resizes the
wave, resets every tile to full options / ruleset-size entropy /
uncollapsed, resizes the output and fills it with the size_t max sentinel,
then records the dimensions and sets the flag m_initialized. -/
def initGrid (rows cols : Nat) (s : WFCState) : Except InitError WFCState :=
  if rows * cols > 0 then
    let wave1 := listResize s.wave (rows * cols) defaultTile
    let wave2 := wave1.map fun t =>
      { t with
        options := { up := Bitset.full, down := Bitset.full,
                     left := Bitset.full, right := Bitset.full }
        entropy := s.ruleset.length
        collapsed := false }
    let output1 := listResize s.output (rows * cols) 0
    let output2 := output1.map fun _ => SIZE_T_MAX
    Except.ok { s with
      wave := wave2
      output := output2
      gridWidth := cols
      gridHeight := rows
      initialized := true }
  else
    Except.error InitError.invalidDimensions

/-- tileCount(): the number of tiles in the active ruleset. -/
def tileCount (s : WFCState) : Nat := s.ruleset.length

/-- getNeighboringIndices(currentIndex) from the source, with the grid
dimensions (member fields in C++) passed explicitly: pushes the Up, Down,
Left, Right neighbor indices in that order, each guarded by the source's
bound check (row > 0, row < height - 1, col > 0, col < width - 1). -/
def getNeighboringIndices (w h : Nat) (currentIndex : Nat) : List Nat :=
  let row := currentIndex / w
  let col := currentIndex % w
  (if row > 0 then [currentIndex - w] else []) ++
  (if row < h - 1 then [currentIndex + w] else []) ++
  (if col > 0 then [currentIndex - 1] else []) ++
  (if col < w - 1 then [currentIndex + 1] else [])

/-- collapse(index) from the source: returns true immediately when the cell
is already collapsed, otherwise marks it collapsed and returns true. -/
def collapse (index : Nat) (s : WFCState) : Bool × WFCState :=
  if (s.wave.getD index defaultTile).collapsed then
    (true, s)
  else
    (true, { s with wave := s.wave.modify (fun t => { t with collapsed := true }) index })

/-- propagate() from the source: iterates over every wave index, computes the
row, column and neighboring indices of that cell, and loops over the
neighbors with an empty body (the propagation logic is unimplemented). -/
def propagate (s : WFCState) : WFCState :=
  (List.range s.wave.length).foldl
    (fun acc index =>
      let _row := index / acc.gridWidth
      let _col := index % acc.gridWidth
      let _neighbors := getNeighboringIndices acc.gridWidth acc.gridHeight index
      acc)
    s

/-- random(min, max) from the source: a fresh std::random_device-seeded
engine produces a uniform value in [min, max]; the draw is modelled by an
explicit entropy value e mapped into the range. -/
def random (min max : Nat) (e : Nat) : Nat :=
  min + e % (max - min + 1)

/-- run() from the source: bail out when not initialized; otherwise draw a
random tile index, direction index and option index (three independent
draws, here the entropy values e1, e2, e3), set that option bit of that
tile (the index is in [0, BITSET_SIZE) so bitset::set cannot throw — the
Fin index carries that bound), write the option index into the output grid,
and collapse the tile. -/
def run (s : WFCState) (e1 e2 e3 : Nat) : WFCState :=
  if !s.initialized then s
  else
    let randomTileIndex := random 0 (s.wave.length - 1) e1
    let randomDirectionIndex := random 0 (NUM_OPTION_DIRECTIONS - 1) e2
    let randomOptionIndex := random 0 (BITSET_SIZE - 1) e3
    let wave1 := s.wave.modify
      (fun t =>
        let oldBits := t.options.get randomDirectionIndex
        let newBits : Bitset :=
          insert (⟨randomOptionIndex % BITSET_SIZE, Nat.mod_lt _ (by decide)⟩ : Fin BITSET_SIZE) oldBits
        { t with options := t.options.set randomDirectionIndex newBits })
      randomTileIndex
    let output1 := s.output.set randomTileIndex randomOptionIndex
    (collapse randomTileIndex { s with wave := wave1, output := output1 }).2

/-! ### Rule-file parsing (parseRulesFromFile)

The file is modelled as its list of lines (the result of repeated
std::getline). File opening and the early empty return on an unreadable
file are outside the model: the claims about the parser concern calls that
did open the file. -/

/-- Split a character list at every character satisfying p; the separators
are dropped and empty segments are kept (the character-level analogue of
the splitting the stream extractions perform). -/
def splitByPred (p : Char → Bool) (l : List Char) : List (List Char) :=
  List.foldr
    (fun x acc => if p x then [] :: acc else (x :: acc.headD []) :: acc.tail)
    [[]] l

/-- Rejoin segments with the given character between them (restores the
text after the first separator). -/
def intercalChar (c : Char) : List (List Char) → List Char
  | [] => []
  | [x] => x
  | x :: y :: xs => x ++ c :: intercalChar c (y :: xs)

/-- std::getline(iss, key, '=') followed by std::getline(iss, value) on one
line: fails (malformed line) when the line holds no '=' at all, or nothing
follows the first '='; otherwise key is the text before the first '=' and
value everything after it. -/
def splitKeyValue (line : String) : Option (String × String) :=
  match splitByPred (fun c => c = '=') line.data with
  | [] => none
  | [_] => none
  | k :: rest =>
    let v := intercalChar '=' rest
    if v = [] then none else some (String.mk k, String.mk v)

/-- The numeric value of a digit string, most significant digit first. -/
def digitsToNat (t : List Char) : Nat :=
  t.foldl (fun n c => n * 10 + (c.toNat - 48)) 0

/-- A nonempty all-digit token. -/
def isDigits (t : List Char) : Bool :=
  !t.isEmpty && t.all Char.isDigit

/-- One extraction vss >> optionTileID for a whitespace-separated token:
succeeds on an unsigned decimal numeral that fits in size_t. (Tokens with
signs or other characters make the C++ extraction fail or wrap; no claim
exercises those, and the model treats them as extraction failure.) -/
def readSizeT (t : List Char) : Option Nat :=
  if isDigits t then
    let n := digitsToNat t
    if n ≤ SIZE_T_MAX then some n else none
  else none

/-- while (vss >> optionTileID): the longest prefix of whitespace-separated
tokens that extract as size_t values, in order. -/
def parseIds (value : String) : List Nat :=
  let toks := (splitByPred Char.isWhitespace value.data).filter
    (fun t => !t.isEmpty)
  (toks.takeWhile (fun t => (readSizeT t).isSome)).filterMap readSizeT

/-- The parseOption lambda of the source: maps the key to a direction index
(index stays 0, i.e. up, for any unrecognized key), then sets the bit of
every extracted tile id in that direction's bitset of the tile under
construction; bitset::set throws out_of_range for an id not below
BITSET_SIZE. -/
def parseOption (key value : String) (t : Tile) : Except ParseErr Tile :=
  let index :=
    if key = "up" then 0
    else if key = "down" then 1
    else if key = "left" then 2
    else if key = "right" then 3
    else 0
  (parseIds value).foldlM
    (fun acc id =>
      (bitsetSet (acc.options.get index) id).map
        (fun b => { acc with options := acc.options.set index b }))
    t

/-- Handling of one body line inside a tile section: a line that fails the
key/value split is reported to std::cerr and skipped (the tile is
unchanged); otherwise parseOption processes it. -/
def processLine (line : String) (t : Tile) : Except ParseErr Tile :=
  match splitKeyValue line with
  | none => Except.ok t
  | some kv => parseOption kv.1 kv.2 t

/-- The inner loop's termination test: an empty line or a line whose first
character is a bracket (line.empty() || line[0] == the bracket) ends the
current tile section — and is consumed by the inner getline. -/
def isTerminator (l : String) : Bool :=
  match l.data with
  | [] => true
  | c :: _ => c = '['

/-- Whether the pattern is an initial segment of the text. -/
def leadMatch : List Char → List Char → Bool
  | [], _ => true
  | _ :: _, [] => false
  | p :: ps, x :: xs => p = x && leadMatch ps xs

/-- Whether the pattern occurs as a contiguous segment anywhere in the
text. -/
def containsSeq (pat : List Char) : List Char → Bool
  | [] => leadMatch pat []
  | x :: xs => leadMatch pat (x :: xs) || containsSeq pat xs

/-- line.find of the tile-header marker != npos: the line holds "[TILE_"
somewhere. -/
def hasTileHeader (l : String) : Bool :=
  containsSeq "[TILE_".data l.data

/-- The fused read loop of parseRulesFromFile over the remaining lines, one
getline per list element, with rs the m_ruleset accumulator. The mode none
is the outer loop scanning for a header; mode some t is the inner loop
building the tile t of the current section. A terminator line is consumed
by the inner loop and push_back happens on it (or at end of file); a
thrown out_of_range from a body line aborts everything. -/
def parseLoop : List String → Option Tile → List Tile →
    Except ParseErr (List Tile)
  | [], none, rs => Except.ok rs
  | [], some t, rs => Except.ok (rs ++ [t])
  | line :: rest, none, rs =>
    if hasTileHeader line then parseLoop rest (some defaultTile) rs
    else parseLoop rest none rs
  | line :: rest, some t, rs =>
    if isTerminator line then parseLoop rest none (rs ++ [t])
    else
      match processLine line t with
      | Except.error e => Except.error e
      | Except.ok t2 => parseLoop rest (some t2) rs

/-- The whole line-processing loop of parseRulesFromFile, starting outside
any tile section. -/
def parseLines (lines : List String) (rs : List Tile) :
    Except ParseErr (List Tile) :=
  parseLoop lines none rs

/-- parseRulesFromFile from the source, on the lines of an opened file:
runs the parsing loop over the lines with the object's current m_ruleset,
stores the result back into m_ruleset, and returns it. An uncaught
out_of_range from bitset::set aborts the whole call. -/
def parseRulesFromFile (lines : List String) (s : WFCState) :
    Except ParseErr (List Tile × WFCState) :=
  match parseLines lines s.ruleset with
  | Except.error e => Except.error e
  | Except.ok rs => Except.ok (rs, { s with ruleset := rs })

/-! ### Derived observations on the state -/

/-- The option bitset of wave cell i in direction d (m_wave[i].options[d]). -/
def cellOptions (s : WFCState) (i d : Nat) : Bitset :=
  (s.wave.getD i defaultTile).options.get d

/-- The entropy field of wave cell i. -/
def cellEntropy (s : WFCState) (i : Nat) : Nat :=
  (s.wave.getD i defaultTile).entropy

/-- The collapsed flag of wave cell i. -/
def cellCollapsed (s : WFCState) (i : Nat) : Bool :=
  (s.wave.getD i defaultTile).collapsed

/-- Total possibility count over all cells and directions: the sum of the
cardinalities of every option bitset in the wave. -/
def totalPossibilities (s : WFCState) : Nat :=
  (s.wave.map fun t =>
    t.options.up.card + t.options.down.card +
    t.options.left.card + t.options.right.card).sum

/-! ### Shared lemmas -/

/-- A left fold whose step returns the accumulator unchanged is the
identity. -/
theorem foldl_skip (l : List β) (s : α) : l.foldl (fun acc _ => acc) s = s := by
  induction l generalizing s with
  | nil => rfl
  | cons b l ih => simp only [List.foldl_cons]; exact ih s

/-- The propagation pass leaves the state untouched: its loop body computes
the row, column and neighbors of each cell and then does nothing with them. -/
theorem propagate_eq_self (s : WFCState) : propagate s = s := by
  unfold propagate
  exact foldl_skip _ _

/-! ### C2: neighbor query -/

/-- Modelled from the spec's wording for the neighbor query: the cell at
index idx has row idx / w and column idx % w; its Up, Down, Left, Right
neighbors are the cells at the adjacent coordinates, listed in that fixed
order, each present exactly when that coordinate lies on the grid, with the
index of the cell at row r and column c being r * w + c. -/
def neighborsSpec (w h idx : Nat) : List Nat :=
  let r := idx / w
  let c := idx % w
  (if 0 < r then [(r - 1) * w + c] else []) ++
  (if r + 1 < h then [(r + 1) * w + c] else []) ++
  (if 0 < c then [r * w + (c - 1)] else []) ++
  (if c + 1 < w then [r * w + (c + 1)] else [])

/-- C2: on every initialized grid (both dimensions at least 1) and for
every in-range index, getNeighboringIndices returns exactly the existing
neighbors in Up, Down, Left, Right order, omitting off-grid directions;
in particular the three 3x3 examples of the spec hold. -/
theorem neighbors_order :
    (∀ w h idx, 1 ≤ w → 1 ≤ h → idx < w * h →
      getNeighboringIndices w h idx = neighborsSpec w h idx) ∧
    getNeighboringIndices 3 3 4 = [1, 7, 3, 5] ∧
    getNeighboringIndices 3 3 0 = [3, 1] ∧
    getNeighboringIndices 3 3 1 = [4, 0, 2] := by
  refine ⟨?_, by decide, by decide, by decide⟩
  intro w h idx hw hh hidx
  have hdm : w * (idx / w) + idx % w = idx := Nat.div_add_mod idx w
  have hc : idx % w < w := Nat.mod_lt _ (by omega)
  rw [Nat.mul_comm w h] at hidx
  have hrh : idx / w < h := (Nat.div_lt_iff_lt_mul (by omega)).2 hidx
  simp only [getNeighboringIndices, neighborsSpec]
  set r := idx / w with hrdef
  set c := idx % w with hcdef
  have hwle : ∀ n : Nat, 1 ≤ n → w ≤ n * w := fun n hn => by
    calc w = 1 * w := (one_mul w).symm
    _ ≤ n * w := Nat.mul_le_mul_right w hn
  have e_up : 0 < r → (r - 1) * w + c = idx - w := by
    intro h1
    calc (r - 1) * w + c = (r * w - w) + c := by rw [Nat.sub_mul, one_mul]
    _ = (r * w + c) - w := (Nat.sub_add_comm (hwle r h1)).symm
    _ = idx - w := by rw [Nat.mul_comm r w, hdm]
  have e_down : (r + 1) * w + c = idx + w := by
    calc (r + 1) * w + c = (r * w + w) + c := by rw [Nat.add_mul, one_mul]
    _ = (r * w + c) + w := Nat.add_right_comm _ _ _
    _ = idx + w := by rw [Nat.mul_comm r w, hdm]
  have e_left : 0 < c → r * w + (c - 1) = idx - 1 := by
    intro h3
    calc r * w + (c - 1) = (r * w + c) - 1 := (Nat.add_sub_assoc h3 _).symm
    _ = idx - 1 := by rw [Nat.mul_comm r w, hdm]
  have e_right : r * w + (c + 1) = idx + 1 := by
    calc r * w + (c + 1) = (r * w + c) + 1 := (Nat.add_assoc _ _ _).symm
    _ = idx + 1 := by rw [Nat.mul_comm r w, hdm]
  have s1 : (if 0 < r then [idx - w] else ([] : List Nat)) =
      (if 0 < r then [(r - 1) * w + c] else []) := by
    by_cases h1 : 0 < r
    · rw [if_pos h1, if_pos h1, e_up h1]
    · rw [if_neg h1, if_neg h1]
  have s2 : (if r < h - 1 then [idx + w] else ([] : List Nat)) =
      (if r + 1 < h then [(r + 1) * w + c] else []) := by
    by_cases h2 : r + 1 < h
    · rw [if_pos (by omega : r < h - 1), if_pos h2, e_down]
    · rw [if_neg (by omega : ¬r < h - 1), if_neg h2]
  have s3 : (if 0 < c then [idx - 1] else ([] : List Nat)) =
      (if 0 < c then [r * w + (c - 1)] else []) := by
    by_cases h3 : 0 < c
    · rw [if_pos h3, if_pos h3, e_left h3]
    · rw [if_neg h3, if_neg h3]
  have s4 : (if c < w - 1 then [idx + 1] else ([] : List Nat)) =
      (if c + 1 < w then [r * w + (c + 1)] else []) := by
    by_cases h4 : c + 1 < w
    · rw [if_pos (by omega : c < w - 1), if_pos h4, e_right]
    · rw [if_neg (by omega : ¬c < w - 1), if_neg h4]
  rw [s1, s2, s3, s4]

/-- C2 witness: the general statement applied on the 3x3 grid at the center
index 4. -/
theorem neighbors_order_witness :
    1 ≤ 3 ∧ (4 : Nat) < 3 * 3 ∧
    getNeighboringIndices 3 3 4 = neighborsSpec 3 3 4 :=
  ⟨by decide, by decide, neighbors_order.1 3 3 4 (by decide) (by decide) (by decide)⟩

/-! ### C7: propagate termination -/

/-- C7: propagate halts on every wave state: it is a bounded pass over the
finitely many cells (modelled as a total fold, mirroring the source's for
loop over the wave indices), and the total possibility count never
increases across the call — here it is preserved exactly, because the loop
body of the source changes nothing, so the strict-decrease alternative of
the claim is vacuous and the call simply ends. -/
theorem propagate_halts (s : WFCState) :
    totalPossibilities (propagate s) ≤ totalPossibilities s ∧
    propagate s = s := by
  rw [propagate_eq_self]
  exact ⟨Nat.le_refl _, rfl⟩

/-! ### More shared lemmas -/

/-- Reading back the modified position (in range): the update is visible. -/
theorem getD_modify_self (l : List α) (f : α → α) (n : Nat) (d : α)
    (h : n < l.length) : (l.modify f n).getD n d = f (l.getD n d) := by
  rw [List.getD_eq_getElem?_getD, List.getD_eq_getElem?_getD,
    List.getElem?_modify, List.getElem?_eq_getElem h]
  simp

/-- Reading any other position: a modify elsewhere is invisible. -/
theorem getD_modify_ne (l : List α) (f : α → α) (n i : Nat) (d : α)
    (h : n ≠ i) : (l.modify f n).getD i d = l.getD i d := by
  rw [List.getD_eq_getElem?_getD, List.getD_eq_getElem?_getD,
    List.getElem?_modify]
  cases l[i]? with
  | none => rfl
  | some a => simp [h]

/-- Decidable equality of Except values with decidable components. -/
instance {ε α : Type} [DecidableEq ε] [DecidableEq α] :
    DecidableEq (Except ε α) := fun a b =>
  match a, b with
  | Except.ok x, Except.ok y =>
    if h : x = y then isTrue (by rw [h])
    else isFalse (fun hc => h (by cases hc; rfl))
  | Except.ok _, Except.error _ => isFalse (fun hc => by cases hc)
  | Except.error _, Except.ok _ => isFalse (fun hc => by cases hc)
  | Except.error x, Except.error y =>
    if h : x = y then isTrue (by rw [h])
    else isFalse (fun hc => h (by cases hc; rfl))

/-- Resizing always yields the requested length. -/
theorem listResize_length (l : List α) (n : Nat) (d : α) :
    (listResize l n d).length = n := by
  simp only [listResize, List.length_append, List.length_take,
    List.length_replicate]
  omega

/-! ### C4: zero-sized grid is rejected -/

/-- C4: whenever rows * cols = 0, initGrid fails with the invalid-dimensions
configuration error (the source's assert(rows * cols > 0) firing) before
any grid setup: the error outcome carries no successor state, so no field
of the object is set up. -/
theorem init_zero_fails (rows cols : Nat) (s : WFCState)
    (h : rows * cols = 0) :
    initGrid rows cols s = Except.error InitError.invalidDimensions := by
  unfold initGrid
  rw [if_neg (by omega)]

/-- C4 witness: a 0 x 5 grid is rejected. -/
theorem init_zero_fails_witness :
    (0 : Nat) * 5 = 0 ∧
    initGrid 0 5 emptyState = Except.error InitError.invalidDimensions :=
  ⟨by decide, init_zero_fails 0 5 emptyState (by decide)⟩

/-! ### C5: initialization resets every cell -/

/-- C5: for rows * cols > 0, initGrid succeeds from any prior state, and in
the new state every cell's possibility set is full (every representable
tile id possible, in all four directions — the source calls bitset::set()
with no argument), every cell's entropy equals tileCount(), every cell is
uncollapsed, and every output entry is the size_t-max unresolved sentinel;
both grids have exactly rows * cols entries. -/
theorem init_resets (rows cols : Nat) (s s' : WFCState)
    (h : initGrid rows cols s = Except.ok s') :
    s'.wave.length = rows * cols ∧
    s'.output.length = rows * cols ∧
    (∀ t ∈ s'.wave, (∀ d, t.options.get d = Bitset.full) ∧
      t.entropy = tileCount s' ∧ t.collapsed = false) ∧
    (∀ o ∈ s'.output, o = SIZE_T_MAX) := by
  unfold initGrid at h
  by_cases hpos : rows * cols > 0
  · rw [if_pos hpos] at h
    simp only [Except.ok.injEq] at h
    subst h
    refine ⟨?_, ?_, ?_, ?_⟩
    · simp [List.length_map, listResize_length]
    · simp [List.length_map, listResize_length]
    · intro t ht
      simp only [List.mem_map] at ht
      obtain ⟨t0, _, rfl⟩ := ht
      refine ⟨?_, rfl, rfl⟩
      intro d
      rcases d with _ | _ | _ | _ <;> rfl
    · intro o ho
      simp only [List.mem_map] at ho
      obtain ⟨o0, _, rfl⟩ := ho
      rfl
  · rw [if_neg hpos] at h
    cases h

/-- A state left dirty by earlier activity, used to check the reset. -/
def dirtyState : WFCState :=
  { gridWidth := 7, gridHeight := 7,
    wave := [{ options := { up := {0}, down := ∅, left := ∅, right := {1} },
               entropy := 5, collapsed := true }],
    output := [3],
    ruleset := [defaultTile],
    initialized := false }

/-- The state initGrid 1 2 produces from dirtyState. -/
def resetState : WFCState :=
  { gridWidth := 2, gridHeight := 1,
    wave := [{ options := { up := Bitset.full, down := Bitset.full,
                            left := Bitset.full, right := Bitset.full },
               entropy := 1, collapsed := false },
             { options := { up := Bitset.full, down := Bitset.full,
                            left := Bitset.full, right := Bitset.full },
               entropy := 1, collapsed := false }],
    output := [SIZE_T_MAX, SIZE_T_MAX],
    ruleset := [defaultTile],
    initialized := true }

/-- C5 witness: initializing a 1 x 2 grid over a dirty prior state resets
everything. -/
theorem init_resets_witness :
    initGrid 1 2 dirtyState = Except.ok resetState ∧
    (resetState.wave.length = 1 * 2 ∧
     resetState.output.length = 1 * 2 ∧
     (∀ t ∈ resetState.wave, (∀ d, t.options.get d = Bitset.full) ∧
       t.entropy = tileCount resetState ∧ t.collapsed = false) ∧
     (∀ o ∈ resetState.output, o = SIZE_T_MAX)) :=
  ⟨by decide, init_resets 1 2 dirtyState resetState (by decide)⟩

/-! ### C8: collapse is total and idempotent -/

/-- On an already-collapsed cell, collapse returns true without touching the
state. -/
theorem collapse_of_collapsed (s : WFCState) (idx : Nat)
    (hc : (s.wave.getD idx defaultTile).collapsed = true) :
    collapse idx s = (true, s) := by
  unfold collapse
  rw [if_pos hc]

/-- C8: for every in-range index, collapse returns true, leaves the cell's
collapsed flag true, is idempotent (a second call on the now-collapsed cell
returns true and changes nothing), and never alters any cell's option
bitsets or entropy, nor the output grid. -/
theorem collapse_idempotent (s : WFCState) (idx : Nat)
    (h : idx < s.wave.length) :
    (collapse idx s).1 = true ∧
    cellCollapsed (collapse idx s).2 idx = true ∧
    collapse idx (collapse idx s).2 = (true, (collapse idx s).2) ∧
    (∀ i d, cellOptions (collapse idx s).2 i d = cellOptions s i d) ∧
    (∀ i, cellEntropy (collapse idx s).2 i = cellEntropy s i) ∧
    (collapse idx s).2.output = s.output := by
  by_cases hc : (s.wave.getD idx defaultTile).collapsed
  · have e : collapse idx s = (true, s) := collapse_of_collapsed s idx hc
    rw [e]
    exact ⟨rfl, hc, collapse_of_collapsed s idx hc, fun i d => rfl, fun i => rfl, rfl⟩
  · have e : collapse idx s =
        (true, { s with wave := s.wave.modify (fun t => { t with collapsed := true }) idx }) := by
      unfold collapse
      rw [if_neg hc]
    have hflag : ((s.wave.modify (fun t => { t with collapsed := true }) idx).getD
        idx defaultTile).collapsed = true := by
      rw [getD_modify_self _ _ _ _ h]
    rw [e]
    refine ⟨rfl, hflag, ?_, ?_, ?_, rfl⟩
    · exact collapse_of_collapsed _ idx hflag
    · intro i d
      show ((s.wave.modify (fun t => { t with collapsed := true }) idx).getD
        i defaultTile).options.get d =
        ((s.wave.getD i defaultTile).options.get d)
      by_cases hi : idx = i
      · subst hi
        rw [getD_modify_self _ _ _ _ h]
      · rw [getD_modify_ne _ _ _ _ _ hi]
    · intro i
      show ((s.wave.modify (fun t => { t with collapsed := true }) idx).getD
        i defaultTile).entropy = (s.wave.getD i defaultTile).entropy
      by_cases hi : idx = i
      · subst hi
        rw [getD_modify_self _ _ _ _ h]
      · rw [getD_modify_ne _ _ _ _ _ hi]

/-- A one-cell state used to exercise collapse concretely. -/
def oneCellState : WFCState :=
  { gridWidth := 1, gridHeight := 1,
    wave := [{ options := { up := Bitset.full, down := Bitset.full,
                            left := Bitset.full, right := Bitset.full },
               entropy := 0, collapsed := false }],
    output := [SIZE_T_MAX],
    ruleset := [],
    initialized := true }

/-- C8 witness: collapsing cell 0 of a one-cell wave. -/
theorem collapse_idempotent_witness :
    (0 : Nat) < oneCellState.wave.length ∧
    ((collapse 0 oneCellState).1 = true ∧
     cellCollapsed (collapse 0 oneCellState).2 0 = true ∧
     collapse 0 (collapse 0 oneCellState).2 = (true, (collapse 0 oneCellState).2) ∧
     (∀ i d, cellOptions (collapse 0 oneCellState).2 i d = cellOptions oneCellState i d) ∧
     (∀ i, cellEntropy (collapse 0 oneCellState).2 i = cellEntropy oneCellState i) ∧
     (collapse 0 oneCellState).2.output = oneCellState.output) :=
  ⟨by decide, collapse_idempotent oneCellState 0 (by decide)⟩

/-! ### C1: monotonicity of propagation (and of the run cycle) -/

/-- Elements of a modified list: either an untouched element of the old list
or the image of one under the modification. -/
theorem mem_modify (l : List α) (f : α → α) (n : Nat) (x : α)
    (hx : x ∈ l.modify f n) : x ∈ l ∨ ∃ a ∈ l, x = f a := by
  induction l generalizing n with
  | nil => rw [List.modify_nil] at hx; cases hx
  | cons a l ih =>
    cases n with
    | zero =>
      rw [List.modify_zero_cons] at hx
      cases hx with
      | head => exact Or.inr ⟨a, List.mem_cons_self a l, rfl⟩
      | tail _ hx => exact Or.inl (List.mem_cons_of_mem a hx)
    | succ n =>
      rw [List.modify_succ_cons] at hx
      cases hx with
      | head => exact Or.inl (List.mem_cons_self _ _)
      | tail _ hx =>
        rcases ih n hx with h | ⟨b, hb, rfl⟩
        · exact Or.inl (List.mem_cons_of_mem _ h)
        · exact Or.inr ⟨b, List.mem_cons_of_mem _ hb, rfl⟩

/-- Every direction of every cell of the wave holds the full bitset: the
invariant maintained by every operation of the class. -/
def allFull (s : WFCState) : Prop :=
  ∀ t ∈ s.wave, ∀ d, t.options.get d = Bitset.full

/-- Writing a full bitset into one direction of an all-full option array
keeps every direction full. -/
theorem set_full_get (o : DirOptions) (hfull : ∀ d, o.get d = Bitset.full)
    (i : Nat) (d : Nat) : (o.set i Bitset.full).get d = Bitset.full := by
  have h0 := hfull 0
  have h1 := hfull 1
  have h2 := hfull 2
  have h3 := hfull 3
  rcases i with _ | _ | _ | i <;> rcases d with _ | _ | _ | d <;>
    simp_all [DirOptions.get, DirOptions.set]

/-- The states Reachable through the public interface: a successful
initGrid from any prior state, then any interleaving of run, collapse,
propagate and successful parseRulesFromFile calls. -/
inductive Reachable : WFCState → Prop where
  | init (rows cols : Nat) (s0 s : WFCState) :
      initGrid rows cols s0 = Except.ok s → Reachable s
  | step_run (s : WFCState) (e1 e2 e3 : Nat) :
      Reachable s → Reachable (run s e1 e2 e3)
  | step_collapse (s : WFCState) (idx : Nat) :
      Reachable s → Reachable (collapse idx s).2
  | step_propagate (s : WFCState) :
      Reachable s → Reachable (propagate s)
  | step_parse (s : WFCState) (lines : List String) (r : List Tile)
      (s' : WFCState) : Reachable s →
      parseRulesFromFile lines s = Except.ok (r, s') → Reachable s'

/-- A successful initGrid establishes the all-full invariant. -/
theorem allFull_init (rows cols : Nat) (s0 s : WFCState)
    (h : initGrid rows cols s0 = Except.ok s) : allFull s := by
  unfold initGrid at h
  by_cases hpos : rows * cols > 0
  · rw [if_pos hpos] at h
    simp only [Except.ok.injEq] at h
    subst h
    intro t ht d
    simp only [List.mem_map] at ht
    obtain ⟨t0, _, rfl⟩ := ht
    rcases d with _ | _ | _ | d <;> rfl
  · rw [if_neg hpos] at h
    cases h

/-- run preserves the all-full invariant: the only wave mutation is setting
one bit of one direction of one tile, and inserting into a full bitset
leaves it full. -/
theorem allFull_collapse (s : WFCState) (idx : Nat) (hs : allFull s) :
    allFull (collapse idx s).2 := by
  unfold collapse
  by_cases hc : (s.wave.getD idx defaultTile).collapsed
  · rw [if_pos hc]
    exact hs
  · rw [if_neg hc]
    intro t ht d
    rcases mem_modify _ _ _ _ ht with h | ⟨a, ha, rfl⟩
    · exact hs t h d
    · exact hs a ha d

/-- run preserves the all-full invariant: the only wave mutations are one
bitset::set into an already-full bitset and the collapse of one cell. -/
theorem allFull_run (s : WFCState) (e1 e2 e3 : Nat) (hs : allFull s) :
    allFull (run s e1 e2 e3) := by
  unfold run
  split
  · exact hs
  · apply allFull_collapse
    intro t ht d
    rcases mem_modify _ _ _ _ ht with h | ⟨a, ha, rfl⟩
    · exact hs t h d
    · have hafull := hs a ha
      have hins : (insert
          (⟨random 0 (BITSET_SIZE - 1) e3 % BITSET_SIZE,
            Nat.mod_lt _ (by decide)⟩ : Fin BITSET_SIZE)
          (a.options.get (random 0 (NUM_OPTION_DIRECTIONS - 1) e2)) : Bitset) =
          Bitset.full := by
        rw [hafull]
        simp [Bitset.full]
      show (a.options.set (random 0 (NUM_OPTION_DIRECTIONS - 1) e2)
        (insert (⟨random 0 (BITSET_SIZE - 1) e3 % BITSET_SIZE,
            Nat.mod_lt _ (by decide)⟩ : Fin BITSET_SIZE)
          (a.options.get (random 0 (NUM_OPTION_DIRECTIONS - 1) e2)))).get d =
        Bitset.full
      rw [hins]
      exact set_full_get a.options hafull _ d

/-- propagate preserves the all-full invariant (it changes nothing). -/
theorem allFull_propagate (s : WFCState) (hs : allFull s) :
    allFull (propagate s) := by
  rw [propagate_eq_self]
  exact hs

/-- parseRulesFromFile preserves the all-full invariant: it only appends to
m_ruleset and never touches the wave. -/
theorem allFull_parse (s : WFCState) (lines : List String) (r : List Tile)
    (s' : WFCState) (h : parseRulesFromFile lines s = Except.ok (r, s'))
    (hs : allFull s) : allFull s' := by
  unfold parseRulesFromFile at h
  cases hp : parseLines lines s.ruleset with
  | error e => rw [hp] at h; cases h
  | ok rs =>
    rw [hp] at h
    simp only [Except.ok.injEq, Prod.mk.injEq] at h
    obtain ⟨-, rfl⟩ := h
    exact hs

/-- Every Reachable state satisfies the all-full invariant: no code path of
the class ever clears a wave bit. -/
theorem reachable_allFull (s : WFCState) (h : Reachable s) : allFull s := by
  induction h with
  | init rows cols s0 s hi => exact allFull_init rows cols s0 s hi
  | step_run s e1 e2 e3 _ ih => exact allFull_run s e1 e2 e3 ih
  | step_collapse s idx _ ih => exact allFull_collapse s idx ih
  | step_propagate s _ ih => exact allFull_propagate s ih
  | step_parse s lines r s' _ hp ih => exact allFull_parse s lines r s' hp ih

/-- collapse preserves the wave length. -/
theorem collapse_wave_length (s : WFCState) (idx : Nat) :
    (collapse idx s).2.wave.length = s.wave.length := by
  unfold collapse
  by_cases hc : (s.wave.getD idx defaultTile).collapsed
  · rw [if_pos hc]
  · rw [if_neg hc]
    exact List.length_modify _ _ _

/-- run preserves the wave length. -/
theorem run_wave_length (s : WFCState) (e1 e2 e3 : Nat) :
    (run s e1 e2 e3).wave.length = s.wave.length := by
  unfold run
  split
  · rfl
  · rw [collapse_wave_length]
    exact List.length_modify _ _ _

/-- C1: on every Reachable state, neither a propagate call nor a run cycle
ever adds a tile id to any cell's possibility set: each cell's option
bitset afterward is a subset of the one before (so possibility-set sizes
never increase). propagate leaves every bitset untouched; run's single
bitset::set lands in an already-full bitset on every Reachable state. -/
theorem propagate_monotone (s : WFCState) (h : Reachable s) :
    (∀ i d, cellOptions (propagate s) i d ⊆ cellOptions s i d) ∧
    (∀ e1 e2 e3 i d, cellOptions (run s e1 e2 e3) i d ⊆ cellOptions s i d) := by
  constructor
  · intro i d
    rw [propagate_eq_self]
  · intro e1 e2 e3 i d
    have hfull := reachable_allFull s h
    by_cases hi : i < s.wave.length
    · have hmem : s.wave.getD i defaultTile ∈ s.wave := by
        rw [List.getD_eq_getElem _ _ hi]
        exact List.getElem_mem hi
      have he : cellOptions s i d = Bitset.full := hfull _ hmem d
      rw [he]
      exact Finset.subset_univ _
    · unfold cellOptions
      rw [List.getD_eq_default _ _
        (show (run s e1 e2 e3).wave.length ≤ i by rw [run_wave_length]; omega)]
      rw [List.getD_eq_default _ _ (show s.wave.length ≤ i by omega)]

/-- C1 witness: the one-cell state produced by initializing a 1 x 1 grid. -/
theorem propagate_monotone_witness :
    cellOptions (propagate oneCellState) 0 0 ⊆ cellOptions oneCellState 0 0 ∧
    cellOptions (run oneCellState 0 0 0) 0 0 ⊆ cellOptions oneCellState 0 0 :=
  ⟨(propagate_monotone oneCellState
      (Reachable.init 1 1 emptyState oneCellState (by decide))).1 0 0,
   (propagate_monotone oneCellState
      (Reachable.init 1 1 emptyState oneCellState (by decide))).2 0 0 0 0 0⟩

/-! ### C3: determinism under a fixed seed -/

/-- The two-cell state initGrid 1 2 produces from a fresh object. -/
def twoCellState : WFCState :=
  { gridWidth := 2, gridHeight := 1,
    wave := [{ options := { up := Bitset.full, down := Bitset.full,
                            left := Bitset.full, right := Bitset.full },
               entropy := 0, collapsed := false },
             { options := { up := Bitset.full, down := Bitset.full,
                            left := Bitset.full, right := Bitset.full },
               entropy := 0, collapsed := false }],
    output := [SIZE_T_MAX, SIZE_T_MAX],
    ruleset := [],
    initialized := true }

/-- C3 evaluation: the source's random() seeds a fresh engine from
std::random_device on every call (there is no seed parameter anywhere in
the interface), so each call consumes fresh hidden entropy. On one and the
same initialized configuration — same ruleset, same grid size — two
executions of run() whose hidden per-call draws differ produce different
output grids: the output is not a function of ruleset, grid size and seed. -/
theorem run_depends_on_hidden_entropy :
    initGrid 1 2 emptyState = Except.ok twoCellState ∧
    (run twoCellState 0 0 0).output = [0, SIZE_T_MAX] ∧
    (run twoCellState 1 0 1).output = [SIZE_T_MAX, 1] ∧
    (run twoCellState 0 0 0).output ≠ (run twoCellState 1 0 1).output := by
  refine ⟨by decide, by decide, by decide, by decide⟩

/-! ### C6: handling of malformed lines and unknown keys -/

/-- The tile that parsing the section header plus the single body line
color=3 produces: the unknown key falls through to direction index 0, so
the id 3 lands in the up permission set. -/
def colorTile : Tile :=
  { options := { up := {3}, down := ∅, left := ∅, right := ∅ },
    entropy := 0, collapsed := false }

/-- C6 counterexample: a line whose key is unknown (color) is NOT ignored —
the claim says it contributes nothing to any direction's permission set,
but the parsed tile's up set has gained tile id 3. -/
theorem unknown_key_counterexample :
    parseRulesFromFile ["[TILE_0]", "color=3"] emptyState =
      Except.ok ([colorTile], { emptyState with ruleset := [colorTile] }) ∧
    (3 : Fin BITSET_SIZE) ∈ colorTile.options.up :=
  ⟨by decide, by decide⟩

/-- C6 amended: every malformed key=value line (one the two getline calls
cannot split) is skipped with a diagnostic and leaves the tile being built
unchanged; a line whose key is not one of up, down, left, right is treated
exactly as the key up (the direction index defaults to 0), so its tile ids
are added to the up permission set. -/
theorem parse_line_handling :
    (∀ line t, splitKeyValue line = none → processLine line t = Except.ok t) ∧
    (∀ k v t, k ≠ "up" → k ≠ "down" → k ≠ "left" → k ≠ "right" →
      parseOption k v t = parseOption "up" v t) := by
  constructor
  · intro line t h
    unfold processLine
    rw [h]
  · intro k v t h1 h2 h3 h4
    unfold parseOption
    rw [if_neg h1, if_neg h2, if_neg h3, if_neg h4, if_pos rfl]

/-- C6 witness: a separator-free line is skipped; the unknown key color
behaves exactly like up. -/
theorem parse_line_handling_witness :
    splitKeyValue "garbage" = none ∧
    processLine "garbage" defaultTile = Except.ok defaultTile ∧
    parseOption "color" "3" defaultTile = parseOption "up" "3" defaultTile :=
  ⟨by decide, parse_line_handling.1 "garbage" defaultTile (by decide),
   parse_line_handling.2 "color" "3" defaultTile
     (by decide) (by decide) (by decide) (by decide)⟩

/-! ### C9: parseRulesFromFile accumulates across calls -/

/-- Running the parsing loop with a nonempty accumulator only prepends that
accumulator: the tiles parsed from the lines do not depend on it. -/
theorem parseLoop_append (lines : List String) :
    ∀ (m : Option Tile) (rs : List Tile),
    parseLoop lines m rs = (parseLoop lines m []).map (fun ts => rs ++ ts) := by
  induction lines with
  | nil =>
    intro m rs
    cases m <;> simp [parseLoop, Except.map]
  | cons line rest ih =>
    intro m rs
    cases m with
    | none =>
      by_cases hh : hasTileHeader line = true
      · rw [parseLoop, parseLoop, if_pos hh, if_pos hh]
        exact ih (some defaultTile) rs
      · rw [parseLoop, parseLoop, if_neg hh, if_neg hh]
        exact ih none rs
    | some t =>
      by_cases ht : isTerminator line = true
      · rw [parseLoop, parseLoop, if_pos ht, if_pos ht]
        rw [ih none (rs ++ [t]), ih none ([] ++ [t])]
        cases parseLoop rest none [] with
        | error e => rfl
        | ok ts => simp [Except.map]
      · rw [parseLoop, parseLoop, if_neg ht, if_neg ht]
        cases processLine line t with
        | error e => rfl
        | ok t2 => exact ih (some t2) rs

/-- C9: every successful parseRulesFromFile call appends the file's tiles
(which depend only on the file's lines, here the result of parsing them
over an empty accumulator) to the ruleset the object already holds, and
returns the whole accumulated ruleset: previous tiles first, new ones
after. -/
theorem parse_accumulates (lines : List String) (s : WFCState)
    (r : List Tile) (s' : WFCState)
    (h : parseRulesFromFile lines s = Except.ok (r, s')) :
    ∃ ts, parseLines lines [] = Except.ok ts ∧
      s'.ruleset = s.ruleset ++ ts ∧ r = s'.ruleset := by
  unfold parseRulesFromFile at h
  cases hp : parseLines lines s.ruleset with
  | error e => rw [hp] at h; cases h
  | ok rs =>
    rw [hp] at h
    simp only [Except.ok.injEq, Prod.mk.injEq] at h
    obtain ⟨rfl, rfl⟩ := h
    unfold parseLines at hp
    rw [parseLoop_append lines none s.ruleset] at hp
    cases hq : parseLoop lines none [] with
    | error e => rw [hq] at hp; cases hp
    | ok ts =>
      rw [hq] at hp
      simp only [Except.map, Except.ok.injEq] at hp
      exact ⟨ts, hq, hp.symm, rfl⟩

/-- A state already holding one parsed tile from a previous call. -/
def preState : WFCState := { emptyState with ruleset := [defaultTile] }

/-- The tile parsed from the section header [TILE_0] with body up=1. -/
def upTile : Tile :=
  { options := { up := {1}, down := ∅, left := ∅, right := ∅ },
    entropy := 0, collapsed := false }

/-- C9 witness: parsing one more file appends its tile after the prior one
and returns both. -/
theorem parse_accumulates_witness :
    parseRulesFromFile ["[TILE_0]", "up=1"] preState =
      Except.ok ([defaultTile, upTile],
        { preState with ruleset := [defaultTile, upTile] }) ∧
    (∃ ts, parseLines ["[TILE_0]", "up=1"] [] = Except.ok ts ∧
      ({ preState with ruleset := [defaultTile, upTile] } : WFCState).ruleset =
        preState.ruleset ++ ts ∧
      [defaultTile, upTile] =
        ({ preState with ruleset := [defaultTile, upTile] } : WFCState).ruleset) :=
  ⟨by decide, parse_accumulates ["[TILE_0]", "up=1"] preState _ _ (by decide)⟩

/-! ### C10: fixed bitset capacity of 8 tile ids -/

/-- Folding the per-id bitset::set over a list holding an out-of-range id
throws: the first such id aborts the whole parse with out_of_range. -/
theorem foldl_set_err (index : Nat) (ids : List Nat) (t : Tile)
    (h : ∃ id ∈ ids, BITSET_SIZE ≤ id) :
    ids.foldlM (fun acc id =>
      (bitsetSet (acc.options.get index) id).map
        (fun b => { acc with options := acc.options.set index b })) t =
    Except.error ParseErr.outOfRange := by
  induction ids generalizing t with
  | nil =>
    rcases h with ⟨id, hm, -⟩
    cases hm
  | cons id rest ih =>
    rw [List.foldlM_cons]
    by_cases hid : BITSET_SIZE ≤ id
    · have he : bitsetSet (t.options.get index) id =
          Except.error ParseErr.outOfRange := by
        unfold bitsetSet
        rw [dif_neg (by omega)]
      rw [he]
      rfl
    · have hok : bitsetSet (t.options.get index) id =
          Except.ok (insert (⟨id, by omega⟩ : Fin BITSET_SIZE)
            (t.options.get index)) := by
        unfold bitsetSet
        rw [dif_pos (by omega)]
      rw [hok]
      apply ih
      rcases h with ⟨id2, hm, hge⟩
      cases hm with
      | head => exact absurd hge hid
      | tail _ hm => exact ⟨id2, hm, hge⟩

/-- C10: each per-direction permission set has fixed capacity
BITSET_SIZE = 8; bitset::set rejects every position at or above 8, so a
rule line whose value holds a tile id of 8 or more makes the parse fail
with out_of_range instead of recording the id — only tile ids 0..7 can
ever be recorded, so the system supports at most 8 distinct tiles. -/
theorem bitset_capacity :
    BITSET_SIZE = 8 ∧
    (∀ (b : Bitset) (pos : Nat), BITSET_SIZE ≤ pos →
      bitsetSet b pos = Except.error ParseErr.outOfRange) ∧
    (∀ k v t, (∃ id ∈ parseIds v, BITSET_SIZE ≤ id) →
      ∃ e, parseOption k v t = Except.error e) ∧
    parseRulesFromFile ["[TILE_0]", "up=8"] emptyState =
      Except.error ParseErr.outOfRange := by
  refine ⟨rfl, ?_, ?_, by decide⟩
  · intro b pos hpos
    unfold bitsetSet
    rw [dif_neg (by omega)]
  · intro k v t h
    exact ⟨ParseErr.outOfRange, foldl_set_err _ _ _ h⟩

/-- C10 witness: position 9 is rejected, and the rule value 8 makes
parseOption fail. -/
theorem bitset_capacity_witness :
    BITSET_SIZE ≤ 9 ∧
    bitsetSet ∅ 9 = Except.error ParseErr.outOfRange ∧
    (∃ id ∈ parseIds "8", BITSET_SIZE ≤ id) ∧
    (∃ e, parseOption "up" "8" defaultTile = Except.error e) :=
  ⟨by decide, bitset_capacity.2.1 ∅ 9 (by decide), by decide,
   bitset_capacity.2.2.1 "up" "8" defaultTile (by decide)⟩

end WFC2D
